import Mathlib

/-!
Verification of the typed document facade in `src/backend/src/api/yproxy.rs`.

The Rust code presents a strongly typed view (`YDocProxy` / `YTaskProxy`)
over a replicated document (the `yrs` runtime) whose primitives are nested
maps, ordered sequences, rich-text sequences and a small set of scalar
variants.  We embed the document state shallowly:

* `YAny` is the scalar variant set (`yrs::Any` restricted to the scalars
  this code reads and writes; `Any::Number` is an `f64` in `yrs`, modelled
  here as an exact integer — the spec (§9) explicitly leaves the behaviour
  at the floating boundary unspecified).
* `YValue` is one stored map entry (`yrs::Out`): a scalar, a rich-text
  node (modelled by its flattened string), an ordered sequence of scalars,
  or a nested map.
* a task node (`yrs::MapRef`) is an association list `YTask`;
  the whole graph is an association list `YGraph` whose entries may also be
  non-map values (`YOut.other`).

Fallible Rust functions returning `anyhow::Result<T>` become
`Except String T`; the exact message text is not part of any claim.
-/

instance {e : Type} {a : Type} [DecidableEq e] [DecidableEq a] :
    DecidableEq (Except e a) := fun x y =>
  match x, y with
  | Except.ok u, Except.ok v =>
    if h : u = v then isTrue (by rw [h]) else isFalse fun hh => h (Except.ok.inj hh)
  | Except.error u, Except.error v =>
    if h : u = v then isTrue (by rw [h]) else isFalse fun hh => h (Except.error.inj hh)
  | Except.ok _, Except.error _ => isFalse Except.noConfusion
  | Except.error _, Except.ok _ => isFalse Except.noConfusion

namespace Koso

/-- Scalar variants of the document runtime (`yrs::Any`) as read and written
by `yproxy.rs`. -/
inductive YAny where
  | null
  | undefined
  | num (n : Int)
  | str (s : String)
  | bool (b : Bool)
deriving DecidableEq, Repr

/-- One stored value of a task node (`yrs::Out`): a scalar, a rich-text node
(modelled by its flattened string content), an ordered sequence of scalars,
or a nested map (whose contents no accessor of `yproxy.rs` inspects). -/
inductive YValue where
  | any (a : YAny)
  | ytext (s : String)
  | yarray (xs : List YAny)
  | ymap
deriving DecidableEq, Repr

/-- A task node (`yrs::MapRef`): an association list from field names to
stored values, unique keys. -/
abbrev YTask := List (String × YValue)

/-- Map lookup on a task node (`MapRef::get`). -/
def getField : YTask → String → Option YValue
  | [], _ => none
  | (k, v) :: rest, f => if k = f then some v else getField rest f

/-- Map write on a task node (`MapRef::try_update` / `insert`): replaces the
value stored under the key, inserting the key if absent.  `try_update` skips
the write when the stored value is already equal, which is observationally
the same state. -/
def upsert : YTask → String → YValue → YTask
  | [], f, v => [(f, v)]
  | (k, w) :: rest, f, v =>
    if k = f then (k, v) :: rest else (k, w) :: upsert rest f v

/-- The domain record. Modelled from the spec (§3, §6): the `Task` struct
lives in `src/backend/src/api/model.rs`, which is not among the sources;
its fields are pinned by the spec's schema table and by every
getter/setter of `yproxy.rs`. -/
structure Task where
  id : String
  num : String
  name : String
  desc : Option String := none
  children : List String := []
  assignee : Option String := none
  reporter : Option String := none
  status : Option String := none
  status_time : Option Int := none
  url : Option String := none
  kind : Option String := none
  estimate : Option Int := none
  deadline : Option Int := none
  archived : Option Bool := none
deriving DecidableEq, Repr

/-! ### Field codec: optional scalar reads (`YTaskProxy::get_optional_*`) -/

/-- Rust `YTaskProxy::get_optional_number`: absent or null/undefined is `none`,
a number is `some`, anything else is an error. -/
def get_optional_number (t : YTask) (field : String) : Except String (Option Int) :=
  match getField t field with
  | none => Except.ok none
  | some (YValue.any (YAny.num r)) => Except.ok (some r)
  | some (YValue.any YAny.null) => Except.ok none
  | some (YValue.any YAny.undefined) => Except.ok none
  | some _ => Except.error ("invalid field: " ++ field)

/-- Rust `YTaskProxy::get_optional_string`. -/
def get_optional_string (t : YTask) (field : String) : Except String (Option String) :=
  match getField t field with
  | none => Except.ok none
  | some (YValue.any (YAny.str r)) => Except.ok (some r)
  | some (YValue.any YAny.null) => Except.ok none
  | some (YValue.any YAny.undefined) => Except.ok none
  | some _ => Except.error ("invalid field: " ++ field)

/-- Rust `YTaskProxy::get_optional_bool`. -/
def get_optional_bool (t : YTask) (field : String) : Except String (Option Bool) :=
  match getField t field with
  | none => Except.ok none
  | some (YValue.any (YAny.bool r)) => Except.ok (some r)
  | some (YValue.any YAny.null) => Except.ok none
  | some (YValue.any YAny.undefined) => Except.ok none
  | some _ => Except.error ("invalid field: " ++ field)

/-- Rust `YTaskProxy::get_string`: a required string field; missing is an error. -/
def get_string (t : YTask) (field : String) : Except String String :=
  match get_optional_string t field with
  | Except.error e => Except.error e
  | Except.ok none => Except.error ("field is missing: " ++ field)
  | Except.ok (some s) => Except.ok s

/-- Rust `YTaskProxy::get_desc`: a rich-text field materialized to its string. -/
def get_desc (t : YTask) : Except String (Option String) :=
  match getField t "desc" with
  | none => Except.ok none
  | some (YValue.ytext s) => Except.ok (some s)
  | some (YValue.any YAny.null) => Except.ok none
  | some (YValue.any YAny.undefined) => Except.ok none
  | some v => Except.error ("invalid type for desc field: " ++ reprStr v)

/-- Decoding the children sequence: every element must be a string
(the `collect::<Result<_>>` inside `YTaskProxy::get_children`). -/
def decodeChildren : List YAny → Except String (List String)
  | [] => Except.ok []
  | a :: rest =>
    match a with
    | YAny.str s =>
      match decodeChildren rest with
      | Except.ok l => Except.ok (s :: l)
      | Except.error e => Except.error e
    | _ => Except.error "invalid child"

/-- Rust `YTaskProxy::get_children`: absent means empty; a non-array value or a
non-string element is an error. -/
def get_children (t : YTask) : Except String (List String) :=
  match getField t "children" with
  | none => Except.ok []
  | some (YValue.yarray ys) => decodeChildren ys
  | some _ => Except.error "invalid field: children"

/-! ### Named getters -/

def get_id (t : YTask) : Except String String := get_string t "id"
def get_num (t : YTask) : Except String String := get_string t "num"
def get_name (t : YTask) : Except String String := get_string t "name"
def get_assignee (t : YTask) : Except String (Option String) := get_optional_string t "assignee"
def get_reporter (t : YTask) : Except String (Option String) := get_optional_string t "reporter"
def get_status (t : YTask) : Except String (Option String) := get_optional_string t "status"
def get_status_time (t : YTask) : Except String (Option Int) := get_optional_number t "statusTime"
def get_url (t : YTask) : Except String (Option String) := get_optional_string t "url"
def get_kind (t : YTask) : Except String (Option String) := get_optional_string t "kind"
def get_estimate (t : YTask) : Except String (Option Int) := get_optional_number t "estimate"
def get_deadline (t : YTask) : Except String (Option Int) := get_optional_number t "deadline"
def get_archived (t : YTask) : Except String (Option Bool) := get_optional_bool t "archived"

/-! ### Field codec: scalar writes

`yrs` converts `Option<T>` into `Any`: `None` becomes `Any::Null` (an
explicit null marker, distinct from an absent key), `Some` the scalar. -/

def encOptStr : Option String → YAny
  | none => YAny.null
  | some s => YAny.str s

def encOptInt : Option Int → YAny
  | none => YAny.null
  | some n => YAny.num n

def encOptBool : Option Bool → YAny
  | none => YAny.null
  | some b => YAny.bool b

def set_id (t : YTask) (id : String) : YTask :=
  upsert t "id" (YValue.any (YAny.str id))

def set_num (t : YTask) (num : String) : YTask :=
  upsert t "num" (YValue.any (YAny.str num))

def set_name (t : YTask) (name : String) : YTask :=
  upsert t "name" (YValue.any (YAny.str name))

/-- Rust `YTaskProxy::set_desc`: `Some` clears the rich-text node and inserts the
whole string (net content: the string); `None` writes the null marker. -/
def set_desc (t : YTask) (desc : Option String) : YTask :=
  match desc with
  | some s => upsert t "desc" (YValue.ytext s)
  | none => upsert t "desc" (YValue.any YAny.null)

def set_assignee (t : YTask) (v : Option String) : YTask :=
  upsert t "assignee" (YValue.any (encOptStr v))

def set_reporter (t : YTask) (v : Option String) : YTask :=
  upsert t "reporter" (YValue.any (encOptStr v))

def set_status (t : YTask) (v : Option String) : YTask :=
  upsert t "status" (YValue.any (encOptStr v))

def set_status_time (t : YTask) (v : Option Int) : YTask :=
  upsert t "statusTime" (YValue.any (encOptInt v))

def set_url (t : YTask) (v : Option String) : YTask :=
  upsert t "url" (YValue.any (encOptStr v))

def set_kind (t : YTask) (v : Option String) : YTask :=
  upsert t "kind" (YValue.any (encOptStr v))

def set_estimate (t : YTask) (v : Option Int) : YTask :=
  upsert t "estimate" (YValue.any (encOptInt v))

def set_deadline (t : YTask) (v : Option Int) : YTask :=
  upsert t "deadline" (YValue.any (encOptInt v))

def set_archived (t : YTask) (v : Option Bool) : YTask :=
  upsert t "archived" (YValue.any (encOptBool v))

/-! ### Edit scripts

`YTaskProxy::set_children` calls `similar::capture_diff_slices` with the
Myers algorithm.  The `similar` crate is an external collaborator whose
code is not among the sources.  Modelled from the spec: §4.2 specifies "a
longest-common-subsequence-based diff" producing "a minimal edit script"
of delete/insert/replace spans ("a replace span is ... a delete of the old
span followed by an insert of the new span at the same start index"), the
spans carrying positional indices into the old and new sequences, emitted
in increasing positional order.  `script` computes a minimal element-wise
edit trace; `buildOps` groups it into spans with indices, merging a delete
run immediately followed by an insert run into a replace span (the shape
`similar`'s `Replace` hook produces). -/

/-- One step of an element-wise edit trace. -/
inductive EOp where
  | keep (s : String)
  | del (s : String)
  | ins (s : String)
deriving DecidableEq, Repr

/-- Cost of a trace: the number of non-keep steps. -/
def cost : List EOp → Nat
  | [] => 0
  | EOp.keep _ :: r => cost r
  | EOp.del _ :: r => cost r + 1
  | EOp.ins _ :: r => cost r + 1

/-- Minimal element-wise edit trace between two sequences, fuelled so the
recursion is structural (the fuel bound `|xs| + |ys|` never runs out; the
exhausted branch keeps the old/new projections exact regardless):
longest-common-subsequence based, ties preferring deletions first — the
delete-before-insert shape of Myers regions. -/
def scriptFuel : Nat → List String → List String → List EOp
  | 0, xs, ys => xs.map EOp.del ++ ys.map EOp.ins
  | fuel + 1, xs, ys =>
    match xs, ys with
    | [], ys => ys.map EOp.ins
    | x :: xs, [] => EOp.del x :: scriptFuel fuel xs []
    | x :: xs, y :: ys =>
      if x = y then EOp.keep x :: scriptFuel fuel xs ys
      else
        let d := EOp.del x :: scriptFuel fuel xs (y :: ys)
        let i := EOp.ins y :: scriptFuel fuel (x :: xs) ys
        if cost d ≤ cost i then d else i

/-- The edit trace between two sequences. -/
def script (xs ys : List String) : List EOp :=
  scriptFuel (xs.length + ys.length) xs ys

/-- The source sequence a trace edits (keep and del steps). -/
def oldPart : List EOp → List String
  | [] => []
  | EOp.keep s :: r => s :: oldPart r
  | EOp.del s :: r => s :: oldPart r
  | EOp.ins _ :: r => oldPart r

/-- The target sequence a trace produces (keep and ins steps). -/
def newPart : List EOp → List String
  | [] => []
  | EOp.keep s :: r => s :: newPart r
  | EOp.del _ :: r => newPart r
  | EOp.ins s :: r => s :: newPart r

/-- A grouped edit-script span (`similar::DiffOp`): equal/delete/insert/
replace runs carrying positional indices into the old and new sequences. -/
inductive DiffOp where
  | equal (oldIndex newIndex len : Nat)
  | delete (oldIndex oldLen newIndex : Nat)
  | insert (oldIndex newIndex newLen : Nat)
  | replace (oldIndex oldLen newIndex newLen : Nat)
deriving DecidableEq, Repr

/-- Groups an element-wise trace into spans with positional indices,
starting at old position `o` and new position `n`; a delete run directly
followed by an insert run becomes a replace span. -/
def buildOps : List EOp → Nat → Nat → List DiffOp
  | [], _, _ => []
  | EOp.keep _ :: rest, o, n =>
    match buildOps rest (o + 1) (n + 1) with
    | DiffOp.equal _ _ k :: t => DiffOp.equal o n (k + 1) :: t
    | t => DiffOp.equal o n 1 :: t
  | EOp.del _ :: rest, o, n =>
    match buildOps rest (o + 1) n with
    | DiffOp.delete _ d _ :: t => DiffOp.delete o (d + 1) n :: t
    | DiffOp.replace _ d _ i :: t => DiffOp.replace o (d + 1) n i :: t
    | DiffOp.insert _ _ i :: t => DiffOp.replace o 1 n i :: t
    | t => DiffOp.delete o 1 n :: t
  | EOp.ins _ :: rest, o, n =>
    match buildOps rest o (n + 1) with
    | DiffOp.insert _ _ i :: t => DiffOp.insert o n (i + 1) :: t
    | t => DiffOp.insert o n 1 :: t

/-- The edit script `set_children` iterates over: the grouped spans of the
diff between the old and new children, reversed (`.rev()` in the source),
so that spans are applied highest index first. -/
def childDiffOps (old new : List String) : List DiffOp :=
  (buildOps (script old new) 0 0).reverse

/-- Rust `ArrayRef::remove_range`: removes `l` elements starting at index `o`. -/
def removeRange (xs : List YAny) (o l : Nat) : List YAny :=
  xs.take o ++ xs.drop (o + l)

/-- Rust `ArrayRef::insert_range`: inserts `ys` at index `o`. -/
def insertRange (xs : List YAny) (o : Nat) (ys : List YAny) : List YAny :=
  xs.take o ++ ys ++ xs.drop o

/-- Encoding a list of strings as array elements. -/
def strEnc (l : List String) : List YAny := l.map YAny.str

/-- One iteration of the `for ops in ops` loop of `set_children`: delete
removes the old span, insert splices `new_children[new_index..new_index+new_len]`,
replace does both at the same start index, equal does nothing. -/
def applyOp (new : List String) (arr : List YAny) : DiffOp → List YAny
  | DiffOp.delete o l _ => removeRange arr o l
  | DiffOp.insert o n l => insertRange arr o (strEnc ((new.drop n).take l))
  | DiffOp.replace o ol n nl =>
    insertRange (removeRange arr o ol) o (strEnc ((new.drop n).take nl))
  | DiffOp.equal _ _ _ => arr

/-- Rust `MapRef::get_or_init::<ArrayRef>` on the `children` field: keeps the
existing sequence if the field already holds one, otherwise inserts a fresh
empty sequence (replacing a value of any other type).  Returns the updated
node and the sequence the handle points at. -/
def ensureChildren (t : YTask) : YTask × List YAny :=
  match getField t "children" with
  | some (YValue.yarray ys) => (t, ys)
  | _ => (upsert t "children" (YValue.yarray []), [])

/-- Rust `YTaskProxy::set_children`: reconciles the stored children sequence to
`newChildren`.  If the stored sequence cannot be read as a list of strings
it is clobbered wholesale (warn, remove the full range, insert the target);
if it already equals the target nothing is written; otherwise the reversed
edit script is applied span by span. -/
def set_children (t : YTask) (newChildren : List String) : YTask :=
  let p := ensureChildren t
  match get_children p.1 with
  | Except.error _ =>
    upsert p.1 "children" (YValue.yarray (strEnc newChildren))
  | Except.ok old =>
    if old = newChildren then p.1
    else
      upsert p.1 "children"
        (YValue.yarray (List.foldl (applyOp newChildren) p.2 (childDiffOps old newChildren)))

/-- Rust `YTaskProxy::push_child`: appends `child` to the children sequence
unless an equal string element is already present; returns whether an
append occurred.  (The Rust signature is `Result<bool>` but both paths
return `Ok`, so the result is modelled as the new node paired with the
flag.) -/
def push_child (t : YTask) (child : String) : YTask × Bool :=
  let p := ensureChildren t
  if p.2.any (fun a => match a with
      | YAny.str s => s = child
      | _ => false) then
    (p.1, false)
  else
    (upsert p.1 "children" (YValue.yarray (p.2 ++ [YAny.str child])), true)

/-- Rust `YTaskProxy::is_rollup`: a present kind decides by equality with
"Rollup"; an absent kind falls back to non-emptiness of children. -/
def is_rollup (t : YTask) : Except String Bool :=
  match get_kind t with
  | Except.error e => Except.error e
  | Except.ok (some kind) => Except.ok (kind == "Rollup")
  | Except.ok none =>
    match get_children t with
    | Except.error e => Except.error e
    | Except.ok cs => Except.ok (!cs.isEmpty)

/-- Rust `YTaskProxy::to_task`: materializes the full record, failing on the
first field error, in source order. -/
def to_task (t : YTask) : Except String Task := do
  let id ← get_id t
  let num ← get_num t
  let name ← get_name t
  let desc ← get_desc t
  let children ← get_children t
  let assignee ← get_assignee t
  let reporter ← get_reporter t
  let status ← get_status t
  let status_time ← get_status_time t
  let url ← get_url t
  let kind ← get_kind t
  let estimate ← get_estimate t
  let deadline ← get_deadline t
  let archived ← get_archived t
  Except.ok { id, num, name, desc, children, assignee, reporter, status,
              status_time, url, kind, estimate, deadline, archived }

/-! ### The graph store (`YDocProxy`) -/

/-- A top-level graph entry (`yrs::Out` under the `graph` map): a task node
or a value of any other type (whose contents `YDocProxy::get` never
inspects). -/
inductive YOut where
  | ymap (t : YTask)
  | other
deriving DecidableEq, Repr

/-- The `graph` map: an association list from task ids to entries,
unique keys. -/
abbrev YGraph := List (String × YOut)

/-- Map lookup on the graph. -/
def graphGet : YGraph → String → Option YOut
  | [], _ => none
  | (k, v) :: rest, id => if k = id then some v else graphGet rest id

/-- Map write on the graph (insert or replace). -/
def graphUpsert : YGraph → String → YOut → YGraph
  | [], id, v => [(id, v)]
  | (k, w) :: rest, id, v =>
    if k = id then (k, v) :: rest else (k, w) :: graphUpsert rest id v

/-- Modelled on Rust `str::parse::<u64>` as called by `next_num`: an
optional leading plus sign, at least one ascii digit, value below `2^64`;
anything else is an error. -/
def parseU64 (s : String) : Except String Nat :=
  let ds := match s.data with
    | '+' :: rest => rest
    | cs => cs
  if ds = [] then Except.error "cannot parse integer from empty string"
  else if ds.all (fun c => c.isDigit) then
    let v := ds.foldl (fun acc c => acc * 10 + (c.toNat - '0'.toNat)) 0
    if v < 2 ^ 64 then Except.ok v else Except.error "number too large to fit in target type"
  else Except.error "invalid digit found in string"

namespace YDocProxy

/-- Rust `YDocProxy::get`: fails when the id is absent or maps to a non-map
value. -/
def get (g : YGraph) (id : String) : Except String YTask :=
  match graphGet g id with
  | none => Except.error ("task is missing: " ++ id)
  | some (YOut.ymap t) => Except.ok t
  | some YOut.other => Except.error ("task " ++ id ++ " is not a map")

/-- Rust `YDocProxy::set`: `get_or_init` of the node (a fresh empty map when the
id is absent or holds a non-map value), then every field setter in source
order, children going through the reconciler. -/
def set (g : YGraph) (task : Task) : YGraph :=
  let t0 : YTask :=
    match graphGet g task.id with
    | some (YOut.ymap t) => t
    | _ => []
  let t1 :=
    set_archived
      (set_deadline
        (set_estimate
          (set_kind
            (set_url
              (set_status_time
                (set_status
                  (set_reporter
                    (set_assignee
                      (set_children
                        (set_desc
                          (set_name (set_num (set_id t0 task.id) task.num) task.name)
                          task.desc)
                        task.children)
                      task.assignee)
                    task.reporter)
                  task.status)
                task.status_time)
              task.url)
            task.kind)
          task.estimate)
        task.deadline)
      task.archived
  graphUpsert g task.id (YOut.ymap t1)

/-- The scan loop of `YDocProxy::get_by_nums`: walks the remaining ids,
fails on the first node that cannot be resolved or whose num cannot be
read, collects matches, and stops as soon as as many matches as requested
nums have been found. -/
def getByNumsGo (g : YGraph) (nums : List String) :
    List String → List YTask → Except String (List YTask)
  | [], acc => Except.ok acc
  | id :: rest, acc =>
    match get g id with
    | Except.error e => Except.error e
    | Except.ok task =>
      match get_num task with
      | Except.error e => Except.error e
      | Except.ok s =>
        if nums.contains s then
          let acc' := acc ++ [task]
          if acc'.length = nums.length then Except.ok acc'
          else getByNumsGo g nums rest acc'
        else getByNumsGo g nums rest acc

/-- Rust `YDocProxy::get_by_nums`: the requested set of nums is modelled as its
list of (distinct) elements; the early return for the empty request, then
the scan loop over the graph's keys. -/
def get_by_nums (g : YGraph) (nums : List String) : Except String (List YTask) :=
  if nums.isEmpty then Except.ok []
  else getByNumsGo g nums (g.map Prod.fst) []

/-- The scan loop of `YDocProxy::next_num`, accumulating the running
maximum (a `u64`, so the final increment wraps modulo `2^64`). -/
def nextNumGo (g : YGraph) : List String → Nat → Except String Nat
  | [], maxNum => Except.ok ((maxNum + 1) % 2 ^ 64)
  | id :: rest, maxNum =>
    match get g id with
    | Except.error e => Except.error e
    | Except.ok t =>
      match get_num t with
      | Except.error e => Except.error e
      | Except.ok s =>
        match parseU64 s with
        | Except.error e => Except.error e
        | Except.ok num => nextNumGo g rest (if num > maxNum then num else maxNum)

/-- Rust `YDocProxy::next_num`: scans every node, parses its num as a `u64`,
and returns the successor of the maximum (`u64` arithmetic). -/
def next_num (g : YGraph) : Except String Nat :=
  nextNumGo g (g.map Prod.fst) 0

end YDocProxy

/-! ### Specification-side views

The following definitions restate, in the spec's words, what the scan
operations are supposed to return; the theorems below compare them with
the operations modelled from the source. -/

/-- The num string of a graph entry, when the entry is a task node whose
num reads back as a string. -/
def entryNum (p : String × YOut) : Option String :=
  match p.2 with
  | YOut.ymap t =>
    match get_num t with
    | Except.ok s => some s
    | Except.error _ => none
  | YOut.other => none

/-- All num strings of a graph, in enumeration order. -/
def graphNums (g : YGraph) : List String := g.filterMap entryNum

/-- Whether a graph entry is a task node whose num reads back as a string. -/
def entryGood (p : String × YOut) : Bool :=
  match p.2 with
  | YOut.ymap t =>
    match get_num t with
    | Except.ok _ => true
    | Except.error _ => false
  | YOut.other => false

/-- Specification of `get_by_nums` (§4.4): exactly the task nodes whose num
is in the requested set, in enumeration order. -/
def matchedTasks (g : YGraph) (nums : List String) : List YTask :=
  g.filterMap fun p =>
    match p.2 with
    | YOut.ymap t =>
      match get_num t with
      | Except.ok s => if nums.contains s then some t else none
      | Except.error _ => none
    | YOut.other => none

/-- The parsed num of a graph entry, when the entry is a task node whose
num reads back as a string that parses as a `u64`. -/
def entryParsedNum (p : String × YOut) : Option Nat :=
  match p.2 with
  | YOut.ymap t =>
    match get_num t with
    | Except.ok s =>
      match parseU64 s with
      | Except.ok v => some v
      | Except.error _ => none
    | Except.error _ => none
  | YOut.other => none

/-- Whether a graph entry is a task node with a parseable num. -/
def entryParses (p : String × YOut) : Bool := (entryParsedNum p).isSome

/-- Specification of the maximum sequence number (§4.4): the maximum of all
parsed nums, zero on an empty graph. -/
def graphMaxNum (g : YGraph) : Nat := (g.filterMap entryParsedNum).foldl max 0

/-- A span chain: `Covers ops o n s` says the span list `ops` describes the
element-wise trace `s`, with positional counters starting at old position
`o` and new position `n`, each span carrying the positions at which it
applies.  This is the shape invariant `buildOps` guarantees and the only
fact the apply-order argument needs. -/
inductive Covers : List DiffOp → Nat → Nat → List EOp → Prop where
  | nil (o n : Nat) : Covers [] o n []
  | eq (o n : Nat) (ks : List String) (t : List DiffOp) (s : List EOp)
      (hne : ks ≠ []) (h : Covers t (o + ks.length) (n + ks.length) s) :
      Covers (DiffOp.equal o n ks.length :: t) o n (ks.map EOp.keep ++ s)
  | del (o n : Nat) (ds : List String) (t : List DiffOp) (s : List EOp)
      (hne : ds ≠ []) (h : Covers t (o + ds.length) n s) :
      Covers (DiffOp.delete o ds.length n :: t) o n (ds.map EOp.del ++ s)
  | ins (o n : Nat) (js : List String) (t : List DiffOp) (s : List EOp)
      (hne : js ≠ []) (h : Covers t o (n + js.length) s) :
      Covers (DiffOp.insert o n js.length :: t) o n (js.map EOp.ins ++ s)
  | rep (o n : Nat) (ds js : List String) (t : List DiffOp) (s : List EOp)
      (hd : ds ≠ []) (hj : js ≠ [])
      (h : Covers t (o + ds.length) (n + js.length) s) :
      Covers (DiffOp.replace o ds.length n js.length :: t) o n
        (ds.map EOp.del ++ js.map EOp.ins ++ s)

/-! ### Concrete test vectors -/

/-- The old positional index an edit span applies at. -/
def diffOpIndex : DiffOp → Nat
  | DiffOp.equal o _ _ => o
  | DiffOp.delete o _ _ => o
  | DiffOp.insert o _ _ => o
  | DiffOp.replace o _ _ _ => o

/-- A node whose children sequence is ["a", "b", "c"]. -/
def abcNode : YTask := [("children", YValue.yarray (strEnc ["a", "b", "c"]))]

/-- A node with present kind "github" and non-empty children. -/
def kindGithubTask : YTask :=
  [("kind", YValue.any (YAny.str "github")),
   ("children", YValue.yarray [YAny.str "c"])]

/-- A node with kind "Rollup" and no children field. -/
def rollupTask : YTask := [("kind", YValue.any (YAny.str "Rollup"))]

/-- A node with present non-Rollup kind and a malformed children field. -/
def kindBadChildren : YTask :=
  [("kind", YValue.any (YAny.str "x")), ("children", YValue.any (YAny.num 0))]

/-- A node whose children sequence is ["b", "c"]. -/
def pcNode : YTask := [("children", YValue.yarray [YAny.str "b", YAny.str "c"])]

/-- A graph with nums "1", "3", "2". -/
def gNums132 : YGraph :=
  [("a", YOut.ymap [("num", YValue.any (YAny.str "1"))]),
   ("b", YOut.ymap [("num", YValue.any (YAny.str "3"))]),
   ("c", YOut.ymap [("num", YValue.any (YAny.str "2"))])]

/-- A graph whose single num is the largest u64. -/
def gBigNum : YGraph :=
  [("t", YOut.ymap [("num", YValue.any (YAny.str "18446744073709551615"))])]

/-- A graph whose single node has num "5". -/
def gNum5 : YGraph := [("a", YOut.ymap [("num", YValue.any (YAny.str "5"))])]

/-- A well-formed entry with num "1". -/
def goodNum1 : String × YOut := ("good", YOut.ymap [("num", YValue.any (YAny.str "1"))])

/-- A graph whose scan meets a non-map entry after one good node. -/
def gBadScan : YGraph := [goodNum1, ("bad", YOut.other)]

/-! ## Map lemmas -/

theorem getField_upsert (t : YTask) (f f' : String) (v : YValue) :
    getField (upsert t f v) f' = if f' = f then some v else getField t f' := by
  induction t with
  | nil =>
    by_cases h : f' = f
    · subst h; simp [upsert, getField]
    · simp [upsert, getField, h, Ne.symm h]
  | cons p rest ih =>
    obtain ⟨k, w⟩ := p
    by_cases hkf : k = f
    · subst hkf
      by_cases hf : f' = k
      · subst hf; simp [upsert, getField]
      · simp [upsert, getField, hf, Ne.symm hf]
    · by_cases hkf' : k = f'
      · subst hkf'
        simp [upsert, getField, hkf, Ne.symm hkf]
      · simp [upsert, getField, hkf, hkf', ih]

theorem graphGet_graphUpsert (g : YGraph) (id id' : String) (v : YOut) :
    graphGet (graphUpsert g id v) id' = if id' = id then some v else graphGet g id' := by
  induction g with
  | nil =>
    by_cases h : id' = id
    · subst h; simp [graphUpsert, graphGet]
    · simp [graphUpsert, graphGet, h, Ne.symm h]
  | cons p rest ih =>
    obtain ⟨k, w⟩ := p
    by_cases hk : k = id
    · subst hk
      by_cases hf : id' = k
      · subst hf; simp [graphUpsert, graphGet]
      · simp [graphUpsert, graphGet, hf, Ne.symm hf]
    · by_cases hk' : k = id'
      · subst hk'
        simp [graphUpsert, graphGet, hk, Ne.symm hk]
      · simp [graphUpsert, graphGet, hk, hk', ih]

/-- With unique keys, the lookup of any listed key returns that entry. -/
theorem graphGet_of_mem (g : YGraph) (hkeys : (g.map Prod.fst).Nodup) :
    ∀ p ∈ g, graphGet g p.1 = some p.2 := by
  induction g with
  | nil => intro p hp; cases hp
  | cons q rest ih =>
    obtain ⟨k, w⟩ := q
    simp only [List.map_cons, List.nodup_cons] at hkeys
    intro p hp
    cases hp with
    | head => simp [graphGet]
    | tail _ hp' =>
      have hne : k ≠ p.1 := by
        intro he
        exact hkeys.1 (he ▸ List.mem_map_of_mem Prod.fst hp')
      simp only [graphGet, if_neg hne]
      exact ih hkeys.2 p hp'

/-! ## Children codec lemmas -/

theorem decodeChildren_strEnc (l : List String) :
    decodeChildren (strEnc l) = Except.ok l := by
  induction l with
  | nil => rfl
  | cons s rest ih => simp [strEnc, decodeChildren] at ih ⊢; simp [ih]

theorem decodeChildren_ok (xs : List YAny) (l : List String)
    (h : decodeChildren xs = Except.ok l) : xs = strEnc l := by
  induction xs generalizing l with
  | nil =>
    simp only [decodeChildren] at h
    cases h
    rfl
  | cons a rest ih =>
    cases a with
    | str s =>
      simp only [decodeChildren] at h
      cases hd : decodeChildren rest with
      | ok l' =>
        rw [hd] at h
        cases h
        simp [strEnc, ih l' hd]
      | error e => rw [hd] at h; cases h
    | null => exact (Except.noConfusion h)
    | undefined => exact (Except.noConfusion h)
    | num n => exact (Except.noConfusion h)
    | bool b => exact (Except.noConfusion h)

/-! ## Trace projection lemmas -/

theorem oldPart_append (a b : List EOp) : oldPart (a ++ b) = oldPart a ++ oldPart b := by
  induction a with
  | nil => rfl
  | cons x r ih => cases x <;> simp [oldPart, ih]

theorem newPart_append (a b : List EOp) : newPart (a ++ b) = newPart a ++ newPart b := by
  induction a with
  | nil => rfl
  | cons x r ih => cases x <;> simp [newPart, ih]

theorem oldPart_map_keep (l : List String) : oldPart (l.map EOp.keep) = l := by
  induction l with
  | nil => rfl
  | cons x r ih => simp [oldPart, ih]

theorem oldPart_map_del (l : List String) : oldPart (l.map EOp.del) = l := by
  induction l with
  | nil => rfl
  | cons x r ih => simp [oldPart, ih]

theorem oldPart_map_ins (l : List String) : oldPart (l.map EOp.ins) = [] := by
  induction l with
  | nil => rfl
  | cons x r ih => simp [oldPart, ih]

theorem newPart_map_keep (l : List String) : newPart (l.map EOp.keep) = l := by
  induction l with
  | nil => rfl
  | cons x r ih => simp [newPart, ih]

theorem newPart_map_del (l : List String) : newPart (l.map EOp.del) = [] := by
  induction l with
  | nil => rfl
  | cons x r ih => simp [newPart, ih]

theorem newPart_map_ins (l : List String) : newPart (l.map EOp.ins) = l := by
  induction l with
  | nil => rfl
  | cons x r ih => simp [newPart, ih]

theorem oldPart_scriptFuel (fuel : Nat) :
    ∀ xs ys, oldPart (scriptFuel fuel xs ys) = xs := by
  induction fuel with
  | zero =>
    intro xs ys
    simp [scriptFuel, oldPart_append, oldPart_map_del, oldPart_map_ins]
  | succ fuel ih =>
    intro xs ys
    cases xs with
    | nil => simp [scriptFuel, oldPart_map_ins]
    | cons x xs =>
      cases ys with
      | nil => simp [scriptFuel, oldPart, ih]
      | cons y ys =>
        by_cases hxy : x = y
        · simp [scriptFuel, hxy, oldPart, ih]
        · simp only [scriptFuel, if_neg hxy]
          by_cases hc : cost (EOp.del x :: scriptFuel fuel xs (y :: ys))
              ≤ cost (EOp.ins y :: scriptFuel fuel (x :: xs) ys)
          · simp [hc, oldPart, ih]
          · simp [hc, oldPart, ih]

theorem newPart_scriptFuel (fuel : Nat) :
    ∀ xs ys, newPart (scriptFuel fuel xs ys) = ys := by
  induction fuel with
  | zero =>
    intro xs ys
    simp [scriptFuel, newPart_append, newPart_map_del, newPart_map_ins]
  | succ fuel ih =>
    intro xs ys
    cases xs with
    | nil => simp [scriptFuel, newPart_map_ins]
    | cons x xs =>
      cases ys with
      | nil => simp [scriptFuel, newPart, ih]
      | cons y ys =>
        by_cases hxy : x = y
        · simp [scriptFuel, hxy, newPart, ih]
        · simp only [scriptFuel, if_neg hxy]
          by_cases hc : cost (EOp.del x :: scriptFuel fuel xs (y :: ys))
              ≤ cost (EOp.ins y :: scriptFuel fuel (x :: xs) ys)
          · simp [hc, newPart, ih]
          · simp [hc, newPart, ih]

/-- The trace edits the old sequence. -/
theorem oldPart_script (xs ys : List String) : oldPart (script xs ys) = xs :=
  oldPart_scriptFuel _ xs ys

/-- The trace produces the target sequence. -/
theorem newPart_script (xs ys : List String) : newPart (script xs ys) = ys :=
  newPart_scriptFuel _ xs ys

/-! ## Span-chain correctness -/

/-- The spans `buildOps` produces form a well-positioned chain over the
trace they were built from. -/
theorem buildOps_covers (s : List EOp) : ∀ (o n : Nat), Covers (buildOps s o n) o n s := by
  induction s with
  | nil => intro o n; exact Covers.nil o n
  | cons a rest ih =>
    intro o n
    cases a with
    | keep x =>
      have h := ih (o + 1) (n + 1)
      rcases hb : buildOps rest (o + 1) (n + 1) with - | ⟨op, t⟩
      · rw [hb] at h
        cases h
        have h0 : Covers [DiffOp.equal o n 1] o n ([x].map EOp.keep ++ []) :=
          Covers.eq o n [x] [] [] (by simp) (by simpa using Covers.nil (o + 1) (n + 1))
        simp only [buildOps, hb]
        simpa using h0
      · rw [hb] at h
        cases op with
        | equal o' n' k =>
          cases h with
          | eq _ _ ks t s hne hch =>
            have hch' : Covers t (o + (ks.length + 1)) (n + (ks.length + 1)) s := by
              have e1 : o + (ks.length + 1) = o + 1 + ks.length := by omega
              have e2 : n + (ks.length + 1) = n + 1 + ks.length := by omega
              rw [e1, e2]; exact hch
            have h0 := Covers.eq o n (x :: ks) t s (by simp) (by simpa using hch')
            simp only [buildOps, hb]
            simpa using h0
        | delete o' d n' =>
          have h0 := Covers.eq o n [x] (DiffOp.delete o' d n' :: t) rest (by simp)
            (by simpa using h)
          simp only [buildOps, hb]
          simpa using h0
        | insert o' n' i =>
          have h0 := Covers.eq o n [x] (DiffOp.insert o' n' i :: t) rest (by simp)
            (by simpa using h)
          simp only [buildOps, hb]
          simpa using h0
        | replace o' d n' i =>
          have h0 := Covers.eq o n [x] (DiffOp.replace o' d n' i :: t) rest (by simp)
            (by simpa using h)
          simp only [buildOps, hb]
          simpa using h0
    | del x =>
      have h := ih (o + 1) n
      rcases hb : buildOps rest (o + 1) n with - | ⟨op, t⟩
      · rw [hb] at h
        cases h
        have h0 : Covers [DiffOp.delete o 1 n] o n ([x].map EOp.del ++ []) :=
          Covers.del o n [x] [] [] (by simp) (by simpa using Covers.nil (o + 1) n)
        simp only [buildOps, hb]
        simpa using h0
      · rw [hb] at h
        cases op with
        | delete o' d n' =>
          cases h with
          | del _ _ ds t s hne hch =>
            have hch' : Covers t (o + (ds.length + 1)) n s := by
              have e1 : o + (ds.length + 1) = o + 1 + ds.length := by omega
              rw [e1]; exact hch
            have h0 := Covers.del o n (x :: ds) t s (by simp) (by simpa using hch')
            simp only [buildOps, hb]
            simpa using h0
        | replace o' d n' i =>
          cases h with
          | rep _ _ ds js t s hd hj hch =>
            have hch' : Covers t (o + (ds.length + 1)) (n + js.length) s := by
              have e1 : o + (ds.length + 1) = o + 1 + ds.length := by omega
              rw [e1]; exact hch
            have h0 := Covers.rep o n (x :: ds) js t s (by simp) hj (by simpa using hch')
            simp only [buildOps, hb]
            simpa using h0
        | insert o' n' i =>
          cases h with
          | ins _ _ js t s hne hch =>
            have h0 := Covers.rep o n [x] js t s (by simp) hne (by simpa using hch)
            simp only [buildOps, hb]
            simpa using h0
        | equal o' n' k =>
          have h0 := Covers.del o n [x] (DiffOp.equal o' n' k :: t) rest (by simp)
            (by simpa using h)
          simp only [buildOps, hb]
          simpa using h0
    | ins y =>
      have h := ih o (n + 1)
      rcases hb : buildOps rest o (n + 1) with - | ⟨op, t⟩
      · rw [hb] at h
        cases h
        have h0 : Covers [DiffOp.insert o n 1] o n ([y].map EOp.ins ++ []) :=
          Covers.ins o n [y] [] [] (by simp) (by simpa using Covers.nil o (n + 1))
        simp only [buildOps, hb]
        simpa using h0
      · rw [hb] at h
        cases op with
        | insert o' n' i =>
          cases h with
          | ins _ _ js t s hne hch =>
            have hch' : Covers t o (n + (js.length + 1)) s := by
              have e2 : n + (js.length + 1) = n + 1 + js.length := by omega
              rw [e2]; exact hch
            have h0 := Covers.ins o n (y :: js) t s (by simp) (by simpa using hch')
            simp only [buildOps, hb]
            simpa using h0
        | equal o' n' k =>
          have h0 := Covers.ins o n [y] (DiffOp.equal o' n' k :: t) rest (by simp)
            (by simpa using h)
          simp only [buildOps, hb]
          simpa using h0
        | delete o' d n' =>
          have h0 := Covers.ins o n [y] (DiffOp.delete o' d n' :: t) rest (by simp)
            (by simpa using h)
          simp only [buildOps, hb]
          simpa using h0
        | replace o' d n' i =>
          have h0 := Covers.ins o n [y] (DiffOp.replace o' d n' i :: t) rest (by simp)
            (by simpa using h)
          simp only [buildOps, hb]
          simpa using h0

/-- Applying a well-positioned span chain in reverse order (highest index
first, the order `set_children` iterates in) rewrites the encoded old
sequence into the encoded new sequence, for any front block of already-settled
elements. -/
theorem covers_apply (ops : List DiffOp) (o n : Nat) (s : List EOp)
    (h : Covers ops o n s) :
    ∀ (new : List String) (pre : List YAny), pre.length = o → new.drop n = newPart s →
      List.foldl (applyOp new) (pre ++ strEnc (oldPart s)) ops.reverse
        = pre ++ strEnc (newPart s) := by
  induction h with
  | nil o n =>
    intro new pre hpre hnew
    simp [oldPart, newPart]
  | eq o n ks t s hne hch ih =>
    intro new pre hpre hnew
    rw [List.reverse_cons, List.foldl_append]
    have hnew' : new.drop (n + ks.length) = newPart s := by
      rw [← List.drop_drop, hnew, newPart_append, newPart_map_keep, List.drop_left]
    have hlen : (pre ++ strEnc ks).length = o + ks.length := by simp [strEnc, hpre]
    have ihr := ih new (pre ++ strEnc ks) hlen hnew'
    rw [oldPart_append, oldPart_map_keep, newPart_append, newPart_map_keep]
    have e1 : pre ++ strEnc (ks ++ oldPart s) = pre ++ strEnc ks ++ strEnc (oldPart s) := by
      simp [strEnc]
    rw [e1, List.foldl_cons, List.foldl_nil, ihr]
    simp [applyOp, strEnc]
  | del o n ds t s hne hch ih =>
    intro new pre hpre hnew
    rw [List.reverse_cons, List.foldl_append]
    have hnew' : new.drop n = newPart s := by
      rw [hnew, newPart_append, newPart_map_del, List.nil_append]
    have hlen : (pre ++ strEnc ds).length = o + ds.length := by simp [strEnc, hpre]
    have ihr := ih new (pre ++ strEnc ds) hlen hnew'
    rw [oldPart_append, oldPart_map_del, newPart_append, newPart_map_del, List.nil_append]
    have e1 : pre ++ strEnc (ds ++ oldPart s) = pre ++ strEnc ds ++ strEnc (oldPart s) := by
      simp [strEnc]
    rw [e1, List.foldl_cons, List.foldl_nil, ihr]
    simp only [applyOp, removeRange]
    have hto : (pre ++ strEnc ds ++ strEnc (newPart s)).take o = pre := by
      rw [List.append_assoc, ← hpre, List.take_left]
    have hdo : (pre ++ strEnc ds ++ strEnc (newPart s)).drop (o + ds.length) = strEnc (newPart s) := by
      have e2 : o + ds.length = (pre ++ strEnc ds).length := by simp [strEnc, hpre]
      rw [e2, List.drop_left]
    rw [hto, hdo]
  | ins o n js t s hne hch ih =>
    intro new pre hpre hnew
    rw [List.reverse_cons, List.foldl_append]
    have hnew' : new.drop (n + js.length) = newPart s := by
      rw [← List.drop_drop, hnew, newPart_append, newPart_map_ins, List.drop_left]
    have ihr := ih new pre hpre hnew'
    rw [oldPart_append, oldPart_map_ins, List.nil_append, newPart_append, newPart_map_ins]
    rw [List.foldl_cons, List.foldl_nil, ihr]
    simp only [applyOp, insertRange]
    have hsl : (new.drop n).take js.length = js := by
      rw [hnew, newPart_append, newPart_map_ins, List.take_left]
    have hto : (pre ++ strEnc (newPart s)).take o = pre := by
      rw [← hpre, List.take_left]
    have hdo : (pre ++ strEnc (newPart s)).drop o = strEnc (newPart s) := by
      rw [← hpre, List.drop_left]
    rw [hsl, hto, hdo]
    simp [strEnc]
  | rep o n ds js t s hd hj hch ih =>
    intro new pre hpre hnew
    rw [List.reverse_cons, List.foldl_append]
    have hnew0 : new.drop n = js ++ newPart s := by
      rw [hnew, newPart_append, newPart_append, newPart_map_del, newPart_map_ins,
        List.nil_append]
    have hnew' : new.drop (n + js.length) = newPart s := by
      rw [← List.drop_drop, hnew0, List.drop_left]
    have hlen : (pre ++ strEnc ds).length = o + ds.length := by simp [strEnc, hpre]
    have ihr := ih new (pre ++ strEnc ds) hlen hnew'
    rw [oldPart_append, oldPart_append, oldPart_map_del, oldPart_map_ins, List.append_nil,
      newPart_append, newPart_append, newPart_map_del, newPart_map_ins, List.nil_append]
    have e1 : pre ++ strEnc (ds ++ oldPart s) = pre ++ strEnc ds ++ strEnc (oldPart s) := by
      simp [strEnc]
    rw [e1, List.foldl_cons, List.foldl_nil, ihr]
    simp only [applyOp, removeRange, insertRange]
    have hto : (pre ++ strEnc ds ++ strEnc (newPart s)).take o = pre := by
      rw [List.append_assoc, ← hpre, List.take_left]
    have hdo : (pre ++ strEnc ds ++ strEnc (newPart s)).drop (o + ds.length) = strEnc (newPart s) := by
      have e2 : o + ds.length = (pre ++ strEnc ds).length := by simp [strEnc, hpre]
      rw [e2, List.drop_left]
    have hsl : (new.drop n).take js.length = js := by
      rw [hnew0, List.take_left]
    rw [hto, hdo, hsl]
    have hto2 : (pre ++ strEnc (newPart s)).take o = pre := by
      rw [← hpre, List.take_left]
    have hdo2 : (pre ++ strEnc (newPart s)).drop o = strEnc (newPart s) := by
      rw [← hpre, List.drop_left]
    rw [hto2, hdo2]
    simp [strEnc]

/-- The reversed grouped edit script, applied span by span as
`set_children` does, rewrites the old children into the target. -/
theorem diff_apply (old new : List String) :
    List.foldl (applyOp new) (strEnc old) (childDiffOps old new) = strEnc new := by
  have h := covers_apply (buildOps (script old new) 0 0) 0 0 (script old new)
    (buildOps_covers (script old new) 0 0) new [] rfl
    (by simpa using (newPart_script old new).symm)
  simpa [childDiffOps, oldPart_script, newPart_script] using h

/-! ## Children reconciler lemmas -/

/-- After `get_or_init`, reading children is decoding the handle's array. -/
theorem get_children_ensure (t : YTask) :
    get_children (ensureChildren t).1 = decodeChildren (ensureChildren t).2 := by
  cases h : getField t "children" with
  | none => simp [ensureChildren, h, get_children, getField_upsert]
  | some v =>
    cases v with
    | yarray ys => simp [ensureChildren, h, get_children]
    | any a => simp [ensureChildren, h, get_children, getField_upsert]
    | ytext s => simp [ensureChildren, h, get_children, getField_upsert]
    | ymap => simp [ensureChildren, h, get_children, getField_upsert]

/-- The `get_or_init` step on children touches no other field. -/
theorem getField_ensure (t : YTask) (f : String) (hf : f ≠ "children") :
    getField (ensureChildren t).1 f = getField t f := by
  cases h : getField t "children" with
  | none => simp [ensureChildren, h, getField_upsert, hf]
  | some v =>
    cases v with
    | yarray ys => simp [ensureChildren, h]
    | any a => simp [ensureChildren, h, getField_upsert, hf]
    | ytext s => simp [ensureChildren, h, getField_upsert, hf]
    | ymap => simp [ensureChildren, h, getField_upsert, hf]

/-- Whatever the prior state of the children field, after `set_children`
the children read back as exactly the target list. -/
theorem set_children_children (t : YTask) (cs : List String) :
    get_children (set_children t cs) = Except.ok cs := by
  cases hg : get_children (ensureChildren t).1 with
  | error e =>
    simp only [set_children]
    rw [hg]
    simp [get_children, getField_upsert, decodeChildren_strEnc]
  | ok old =>
    by_cases he : old = cs
    · subst he
      simp only [set_children]
      rw [hg]
      simpa using hg
    · have hdec : decodeChildren (ensureChildren t).2 = Except.ok old := by
        rw [← get_children_ensure]; exact hg
      have harr : (ensureChildren t).2 = strEnc old := decodeChildren_ok _ _ hdec
      simp only [set_children]
      rw [hg]
      simp [he, get_children, getField_upsert, harr, diff_apply, decodeChildren_strEnc]

/-- A `set_children` call touches no field other than children. -/
theorem getField_set_children (t : YTask) (cs : List String) (f : String)
    (hf : f ≠ "children") : getField (set_children t cs) f = getField t f := by
  have h1 := getField_ensure t f hf
  cases hg : get_children (ensureChildren t).1 with
  | error e =>
    simp only [set_children]
    rw [hg]
    simp [getField_upsert, hf, h1]
  | ok old =>
    by_cases he : old = cs
    · simp only [set_children]
      rw [hg]
      simp [he, h1]
    · simp only [set_children]
      rw [hg]
      simp [he, getField_upsert, hf, h1]

/-- The membership test of `push_child` finds exactly the string elements
equal to the candidate. -/
theorem push_any_eq (xs : List YAny) (c : String) :
    (xs.any fun a => match a with
      | YAny.str s => decide (s = c)
      | _ => false) = true ↔ YAny.str c ∈ xs := by
  induction xs with
  | nil => simp
  | cons a rest ih =>
    cases a with
    | str s =>
      by_cases hs : s = c
      · subst hs; simp
      · simp [hs, ih, Ne.symm hs]
    | null => simp [ih]
    | undefined => simp [ih]
    | num n => simp [ih]
    | bool b => simp [ih]

/-! ## Codec decode lemmas -/

theorem get_optional_string_enc (t : YTask) (f : String) (v : Option String)
    (h : getField t f = some (YValue.any (encOptStr v))) :
    get_optional_string t f = Except.ok v := by
  cases v <;> simp [get_optional_string, h, encOptStr]

theorem get_optional_number_enc (t : YTask) (f : String) (v : Option Int)
    (h : getField t f = some (YValue.any (encOptInt v))) :
    get_optional_number t f = Except.ok v := by
  cases v <;> simp [get_optional_number, h, encOptInt]

theorem get_optional_bool_enc (t : YTask) (f : String) (v : Option Bool)
    (h : getField t f = some (YValue.any (encOptBool v))) :
    get_optional_bool t f = Except.ok v := by
  cases v <;> simp [get_optional_bool, h, encOptBool]

theorem get_string_enc (t : YTask) (f s : String)
    (h : getField t f = some (YValue.any (YAny.str s))) :
    get_string t f = Except.ok s := by
  simp [get_string, get_optional_string, h]

theorem get_desc_enc (t : YTask) (v : Option String)
    (h : getField t "desc" = some (match v with
      | some s => YValue.ytext s
      | none => YValue.any YAny.null)) :
    get_desc t = Except.ok v := by
  cases v <;> simp_all [get_desc]

theorem get_children_congr (t t' : YTask)
    (h : getField t "children" = getField t' "children") :
    get_children t = get_children t' := by
  simp [get_children, h]

/-- Writing `set_desc` is a single keyed write. -/
theorem set_desc_eq (t : YTask) (v : Option String) :
    set_desc t v = upsert t "desc" (match v with
      | some s => YValue.ytext s
      | none => YValue.any YAny.null) := by
  cases v <;> rfl

theorem except_ok_bind {a : Type} {b : Type} (x : a) (f : a → Except String b) :
    (Except.ok x >>= f : Except String b) = f x := rfl

/-- Writing every field of a Task onto any prior node state and
materializing the node back yields the same Task. -/
theorem to_task_pipeline (t0 : YTask) (task : Task) :
    to_task
      (set_archived (set_deadline (set_estimate (set_kind (set_url (set_status_time
        (set_status (set_reporter (set_assignee (set_children (set_desc
        (set_name (set_num (set_id t0 task.id) task.num) task.name) task.desc)
        task.children) task.assignee) task.reporter) task.status) task.status_time)
        task.url) task.kind) task.estimate) task.deadline) task.archived)
      = Except.ok task := by
  have g_id : get_id
      (set_archived (set_deadline (set_estimate (set_kind (set_url (set_status_time
        (set_status (set_reporter (set_assignee (set_children (set_desc
        (set_name (set_num (set_id t0 task.id) task.num) task.name) task.desc)
        task.children) task.assignee) task.reporter) task.status) task.status_time)
        task.url) task.kind) task.estimate) task.deadline) task.archived)
      = Except.ok task.id := by
    apply get_string_enc
    simp [set_archived, set_deadline, set_estimate, set_kind, set_url, set_status_time,
      set_status, set_reporter, set_assignee, getField_set_children, set_desc_eq,
      set_name, set_num, set_id, getField_upsert]
  have g_num : get_num
      (set_archived (set_deadline (set_estimate (set_kind (set_url (set_status_time
        (set_status (set_reporter (set_assignee (set_children (set_desc
        (set_name (set_num (set_id t0 task.id) task.num) task.name) task.desc)
        task.children) task.assignee) task.reporter) task.status) task.status_time)
        task.url) task.kind) task.estimate) task.deadline) task.archived)
      = Except.ok task.num := by
    apply get_string_enc
    simp [set_archived, set_deadline, set_estimate, set_kind, set_url, set_status_time,
      set_status, set_reporter, set_assignee, getField_set_children, set_desc_eq,
      set_name, set_num, set_id, getField_upsert]
  have g_name : get_name
      (set_archived (set_deadline (set_estimate (set_kind (set_url (set_status_time
        (set_status (set_reporter (set_assignee (set_children (set_desc
        (set_name (set_num (set_id t0 task.id) task.num) task.name) task.desc)
        task.children) task.assignee) task.reporter) task.status) task.status_time)
        task.url) task.kind) task.estimate) task.deadline) task.archived)
      = Except.ok task.name := by
    apply get_string_enc
    simp [set_archived, set_deadline, set_estimate, set_kind, set_url, set_status_time,
      set_status, set_reporter, set_assignee, getField_set_children, set_desc_eq,
      set_name, set_num, set_id, getField_upsert]
  have g_desc : get_desc
      (set_archived (set_deadline (set_estimate (set_kind (set_url (set_status_time
        (set_status (set_reporter (set_assignee (set_children (set_desc
        (set_name (set_num (set_id t0 task.id) task.num) task.name) task.desc)
        task.children) task.assignee) task.reporter) task.status) task.status_time)
        task.url) task.kind) task.estimate) task.deadline) task.archived)
      = Except.ok task.desc := by
    apply get_desc_enc
    simp [set_archived, set_deadline, set_estimate, set_kind, set_url, set_status_time,
      set_status, set_reporter, set_assignee, getField_set_children, set_desc_eq,
      set_name, set_num, set_id, getField_upsert]
  have g_children : get_children
      (set_archived (set_deadline (set_estimate (set_kind (set_url (set_status_time
        (set_status (set_reporter (set_assignee (set_children (set_desc
        (set_name (set_num (set_id t0 task.id) task.num) task.name) task.desc)
        task.children) task.assignee) task.reporter) task.status) task.status_time)
        task.url) task.kind) task.estimate) task.deadline) task.archived)
      = Except.ok task.children := by
    refine (get_children_congr _ (set_children (set_desc
        (set_name (set_num (set_id t0 task.id) task.num) task.name) task.desc)
        task.children) ?_).trans (set_children_children _ _)
    simp [set_archived, set_deadline, set_estimate, set_kind, set_url, set_status_time,
      set_status, set_reporter, set_assignee, getField_upsert]
  have g_assignee : get_assignee
      (set_archived (set_deadline (set_estimate (set_kind (set_url (set_status_time
        (set_status (set_reporter (set_assignee (set_children (set_desc
        (set_name (set_num (set_id t0 task.id) task.num) task.name) task.desc)
        task.children) task.assignee) task.reporter) task.status) task.status_time)
        task.url) task.kind) task.estimate) task.deadline) task.archived)
      = Except.ok task.assignee := by
    apply get_optional_string_enc
    simp [set_archived, set_deadline, set_estimate, set_kind, set_url, set_status_time,
      set_status, set_reporter, set_assignee, getField_set_children, set_desc_eq,
      set_name, set_num, set_id, getField_upsert]
  have g_reporter : get_reporter
      (set_archived (set_deadline (set_estimate (set_kind (set_url (set_status_time
        (set_status (set_reporter (set_assignee (set_children (set_desc
        (set_name (set_num (set_id t0 task.id) task.num) task.name) task.desc)
        task.children) task.assignee) task.reporter) task.status) task.status_time)
        task.url) task.kind) task.estimate) task.deadline) task.archived)
      = Except.ok task.reporter := by
    apply get_optional_string_enc
    simp [set_archived, set_deadline, set_estimate, set_kind, set_url, set_status_time,
      set_status, set_reporter, set_assignee, getField_set_children, set_desc_eq,
      set_name, set_num, set_id, getField_upsert]
  have g_status : get_status
      (set_archived (set_deadline (set_estimate (set_kind (set_url (set_status_time
        (set_status (set_reporter (set_assignee (set_children (set_desc
        (set_name (set_num (set_id t0 task.id) task.num) task.name) task.desc)
        task.children) task.assignee) task.reporter) task.status) task.status_time)
        task.url) task.kind) task.estimate) task.deadline) task.archived)
      = Except.ok task.status := by
    apply get_optional_string_enc
    simp [set_archived, set_deadline, set_estimate, set_kind, set_url, set_status_time,
      set_status, set_reporter, set_assignee, getField_set_children, set_desc_eq,
      set_name, set_num, set_id, getField_upsert]
  have g_status_time : get_status_time
      (set_archived (set_deadline (set_estimate (set_kind (set_url (set_status_time
        (set_status (set_reporter (set_assignee (set_children (set_desc
        (set_name (set_num (set_id t0 task.id) task.num) task.name) task.desc)
        task.children) task.assignee) task.reporter) task.status) task.status_time)
        task.url) task.kind) task.estimate) task.deadline) task.archived)
      = Except.ok task.status_time := by
    apply get_optional_number_enc
    simp [set_archived, set_deadline, set_estimate, set_kind, set_url, set_status_time,
      set_status, set_reporter, set_assignee, getField_set_children, set_desc_eq,
      set_name, set_num, set_id, getField_upsert]
  have g_url : get_url
      (set_archived (set_deadline (set_estimate (set_kind (set_url (set_status_time
        (set_status (set_reporter (set_assignee (set_children (set_desc
        (set_name (set_num (set_id t0 task.id) task.num) task.name) task.desc)
        task.children) task.assignee) task.reporter) task.status) task.status_time)
        task.url) task.kind) task.estimate) task.deadline) task.archived)
      = Except.ok task.url := by
    apply get_optional_string_enc
    simp [set_archived, set_deadline, set_estimate, set_kind, set_url, set_status_time,
      set_status, set_reporter, set_assignee, getField_set_children, set_desc_eq,
      set_name, set_num, set_id, getField_upsert]
  have g_kind : get_kind
      (set_archived (set_deadline (set_estimate (set_kind (set_url (set_status_time
        (set_status (set_reporter (set_assignee (set_children (set_desc
        (set_name (set_num (set_id t0 task.id) task.num) task.name) task.desc)
        task.children) task.assignee) task.reporter) task.status) task.status_time)
        task.url) task.kind) task.estimate) task.deadline) task.archived)
      = Except.ok task.kind := by
    apply get_optional_string_enc
    simp [set_archived, set_deadline, set_estimate, set_kind, set_url, set_status_time,
      set_status, set_reporter, set_assignee, getField_set_children, set_desc_eq,
      set_name, set_num, set_id, getField_upsert]
  have g_estimate : get_estimate
      (set_archived (set_deadline (set_estimate (set_kind (set_url (set_status_time
        (set_status (set_reporter (set_assignee (set_children (set_desc
        (set_name (set_num (set_id t0 task.id) task.num) task.name) task.desc)
        task.children) task.assignee) task.reporter) task.status) task.status_time)
        task.url) task.kind) task.estimate) task.deadline) task.archived)
      = Except.ok task.estimate := by
    apply get_optional_number_enc
    simp [set_archived, set_deadline, set_estimate, set_kind, set_url, set_status_time,
      set_status, set_reporter, set_assignee, getField_set_children, set_desc_eq,
      set_name, set_num, set_id, getField_upsert]
  have g_deadline : get_deadline
      (set_archived (set_deadline (set_estimate (set_kind (set_url (set_status_time
        (set_status (set_reporter (set_assignee (set_children (set_desc
        (set_name (set_num (set_id t0 task.id) task.num) task.name) task.desc)
        task.children) task.assignee) task.reporter) task.status) task.status_time)
        task.url) task.kind) task.estimate) task.deadline) task.archived)
      = Except.ok task.deadline := by
    apply get_optional_number_enc
    simp [set_archived, set_deadline, set_estimate, set_kind, set_url, set_status_time,
      set_status, set_reporter, set_assignee, getField_set_children, set_desc_eq,
      set_name, set_num, set_id, getField_upsert]
  have g_archived : get_archived
      (set_archived (set_deadline (set_estimate (set_kind (set_url (set_status_time
        (set_status (set_reporter (set_assignee (set_children (set_desc
        (set_name (set_num (set_id t0 task.id) task.num) task.name) task.desc)
        task.children) task.assignee) task.reporter) task.status) task.status_time)
        task.url) task.kind) task.estimate) task.deadline) task.archived)
      = Except.ok task.archived := by
    apply get_optional_bool_enc
    simp [set_archived, set_deadline, set_estimate, set_kind, set_url, set_status_time,
      set_status, set_reporter, set_assignee, getField_set_children, set_desc_eq,
      set_name, set_num, set_id, getField_upsert]
  rw [to_task, g_id, except_ok_bind, g_num, except_ok_bind, g_name, except_ok_bind,
    g_desc, except_ok_bind, g_children, except_ok_bind, g_assignee, except_ok_bind,
    g_reporter, except_ok_bind, g_status, except_ok_bind, g_status_time, except_ok_bind,
    g_url, except_ok_bind, g_kind, except_ok_bind, g_estimate, except_ok_bind,
    g_deadline, except_ok_bind, g_archived, except_ok_bind]

/-! ## Graph scan lemmas -/

theorem entryGood_elim (p : String × YOut) (h : entryGood p = true) :
    ∃ t s, p.2 = YOut.ymap t ∧ get_num t = Except.ok s := by
  obtain ⟨id, e⟩ := p
  cases e with
  | other => simp [entryGood] at h
  | ymap t =>
    cases hn : get_num t with
    | error e => simp [entryGood, hn] at h
    | ok s => exact ⟨t, s, rfl, hn⟩

theorem entryParses_elim (p : String × YOut) (h : entryParses p = true) :
    ∃ t s v, p.2 = YOut.ymap t ∧ get_num t = Except.ok s ∧ parseU64 s = Except.ok v := by
  obtain ⟨id, e⟩ := p
  cases e with
  | other => simp [entryParses, entryParsedNum] at h
  | ymap t =>
    cases hn : get_num t with
    | error e => simp [entryParses, entryParsedNum, hn] at h
    | ok s =>
      cases hv : parseU64 s with
      | error e => simp [entryParses, entryParsedNum, hn, hv] at h
      | ok v => exact ⟨t, s, v, rfl, hn, hv⟩

/-- The scan loop collects exactly the matching tasks, as long as the
number of matches still to come cannot trip the early exit prematurely. -/
theorem getByNumsGo_eq (g : YGraph) (ns : List String) :
    ∀ (ents : List (String × YOut)) (acc : List YTask),
      (∀ p ∈ ents, graphGet g p.1 = some p.2) →
      (∀ p ∈ ents, entryGood p = true) →
      acc.length + (matchedTasks ents ns).length ≤ ns.length →
      YDocProxy.getByNumsGo g ns (ents.map Prod.fst) acc
        = Except.ok (acc ++ matchedTasks ents ns) := by
  intro ents
  induction ents with
  | nil =>
    intro acc hres hgood hcnt
    simp [YDocProxy.getByNumsGo, matchedTasks]
  | cons p rest ih =>
    intro acc hres hgood hcnt
    obtain ⟨t, s, he, hn⟩ := entryGood_elim p (hgood p (List.mem_cons_self p rest))
    obtain ⟨id, e⟩ := p
    simp only at he
    subst he
    have hr := hres (id, YOut.ymap t) (List.mem_cons_self _ rest)
    simp only [List.map_cons, YDocProxy.getByNumsGo, YDocProxy.get]
    rw [hr]
    simp only []
    rw [hn]
    simp only []
    have hmt : matchedTasks ((id, YOut.ymap t) :: rest) ns
        = (if s ∈ ns then [t] else []) ++ matchedTasks rest ns := by
      by_cases hc2 : s ∈ ns <;>
        simp [matchedTasks, List.filterMap_cons, hn, hc2]
    by_cases hc : s ∈ ns
    · have hcb : ns.contains s = true := by simpa using hc
      rw [if_pos hcb]
      rw [hmt, if_pos hc] at hcnt ⊢
      simp only [List.length_append, List.length_cons, List.length_nil] at hcnt
      by_cases hfull : (acc ++ [t]).length = ns.length
      · rw [if_pos hfull]
        have hrest0 : (matchedTasks rest ns).length = 0 := by
          simp at hfull
          omega
        have hrest : matchedTasks rest ns = [] := List.length_eq_zero.mp hrest0
        simp [hrest]
      · rw [if_neg hfull]
        have := ih (acc ++ [t])
          (fun q hq => hres q (List.mem_cons_of_mem _ hq))
          (fun q hq => hgood q (List.mem_cons_of_mem _ hq))
          (by simp; omega)
        rw [this]
        simp
    · have hcb : ¬ns.contains s = true := by simpa using hc
      rw [if_neg hcb]
      rw [hmt, if_neg hc] at hcnt ⊢
      simp only [List.nil_append] at hcnt ⊢
      exact ih acc
        (fun q hq => hres q (List.mem_cons_of_mem _ hq))
        (fun q hq => hgood q (List.mem_cons_of_mem _ hq))
        hcnt

theorem matchedTasks_nil_req (g : YGraph) : matchedTasks g [] = [] := by
  induction g with
  | nil => rfl
  | cons p rest ih =>
    obtain ⟨id, e⟩ := p
    cases e with
    | other => simpa [matchedTasks, List.filterMap_cons] using ih
    | ymap t =>
      cases hn : get_num t with
      | error e => simpa [matchedTasks, List.filterMap_cons, hn] using ih
      | ok s => simpa [matchedTasks, List.filterMap_cons, hn] using ih

/-- Each matched task corresponds to one graph num lying in the request. -/
theorem length_matchedTasks (g : YGraph) (ns : List String) :
    (matchedTasks g ns).length
      = ((graphNums g).filter fun s => decide (s ∈ ns)).length := by
  induction g with
  | nil => rfl
  | cons p rest ih =>
    obtain ⟨id, e⟩ := p
    cases e with
    | other =>
      simpa [matchedTasks, graphNums, entryNum, List.filterMap_cons] using ih
    | ymap t =>
      cases hn : get_num t with
      | error e =>
        simpa [matchedTasks, graphNums, entryNum, List.filterMap_cons, hn] using ih
      | ok s =>
        have hhead : matchedTasks ((id, YOut.ymap t) :: rest) ns
            = (if s ∈ ns then [t] else []) ++ matchedTasks rest ns := by
          by_cases hc2 : s ∈ ns <;> simp [matchedTasks, List.filterMap_cons, hn, hc2]
        have hgn : graphNums ((id, YOut.ymap t) :: rest) = s :: graphNums rest := by
          simp [graphNums, entryNum, List.filterMap_cons, hn]
        rw [hhead, hgn]
        by_cases hc : s ∈ ns <;> simp [hc, List.filter_cons] <;> omega

/-- With distinct nums in the graph, at most `|ns|` tasks can match. -/
theorem matchedTasks_bound (g : YGraph) (ns : List String)
    (hnums : (graphNums g).Nodup) :
    (matchedTasks g ns).length ≤ ns.length := by
  rw [length_matchedTasks]
  have h1 : ((graphNums g).filter fun s => decide (s ∈ ns)).Nodup :=
    hnums.filter _
  have h2 : ((graphNums g).filter fun s => decide (s ∈ ns)) ⊆ ns := by
    intro x hx
    have := List.mem_filter.mp hx
    exact of_decide_eq_true this.2
  exact (h1.subperm h2).length_le

/-- The scan loop fails as soon as it reaches a malformed entry, provided
the early exit has not yet fired. -/
theorem getByNumsGo_err (g : YGraph) (ns : List String) (badId : String) (badEntry : YOut)
    (hbadres : graphGet g badId = some badEntry)
    (hbad : entryGood (badId, badEntry) = false) :
    ∀ (pre : List (String × YOut)) (tail : List String) (acc : List YTask),
      (∀ p ∈ pre, graphGet g p.1 = some p.2) →
      (∀ p ∈ pre, entryGood p = true) →
      acc.length + (matchedTasks pre ns).length < ns.length →
      ∃ e, YDocProxy.getByNumsGo g ns (pre.map Prod.fst ++ badId :: tail) acc
        = Except.error e := by
  intro pre
  induction pre with
  | nil =>
    intro tail acc hres hgood hcnt
    simp only [List.map_nil, List.nil_append, YDocProxy.getByNumsGo, YDocProxy.get]
    rw [hbadres]
    cases badEntry with
    | other => exact ⟨_, rfl⟩
    | ymap t =>
      simp only []
      cases hn : get_num t with
      | error e => exact ⟨e, rfl⟩
      | ok s => simp [entryGood, hn] at hbad
  | cons p rest ih =>
    intro tail acc hres hgood hcnt
    obtain ⟨t, s, he, hn⟩ := entryGood_elim p (hgood p (List.mem_cons_self p rest))
    obtain ⟨id, e⟩ := p
    simp only at he
    subst he
    have hr := hres (id, YOut.ymap t) (List.mem_cons_self _ rest)
    simp only [List.map_cons, List.cons_append, YDocProxy.getByNumsGo, YDocProxy.get]
    rw [hr]
    simp only []
    rw [hn]
    simp only []
    have hmt : matchedTasks ((id, YOut.ymap t) :: rest) ns
        = (if s ∈ ns then [t] else []) ++ matchedTasks rest ns := by
      by_cases hc2 : s ∈ ns <;>
        simp [matchedTasks, List.filterMap_cons, hn, hc2]
    by_cases hc : s ∈ ns
    · have hcb : ns.contains s = true := by simpa using hc
      rw [if_pos hcb]
      rw [hmt, if_pos hc] at hcnt
      simp only [List.length_append, List.length_cons, List.length_nil] at hcnt
      have hfull : ¬(acc ++ [t]).length = ns.length := by
        simp only [List.length_append, List.length_cons, List.length_nil]
        omega
      rw [if_neg hfull]
      exact ih tail (acc ++ [t])
        (fun q hq => hres q (List.mem_cons_of_mem _ hq))
        (fun q hq => hgood q (List.mem_cons_of_mem _ hq))
        (by simp; omega)
    · have hcb : ¬ns.contains s = true := by simpa using hc
      rw [if_neg hcb]
      rw [hmt, if_neg hc] at hcnt
      simp only [List.nil_append] at hcnt
      exact ih tail acc
        (fun q hq => hres q (List.mem_cons_of_mem _ hq))
        (fun q hq => hgood q (List.mem_cons_of_mem _ hq))
        hcnt

/-! ## Sequence number lemmas -/

/-- The scan loop of `next_num` accumulates the maximum of all parsed nums
when every entry parses. -/
theorem nextNumGo_eq (g : YGraph) :
    ∀ (ents : List (String × YOut)) (m : Nat),
      (∀ p ∈ ents, graphGet g p.1 = some p.2) →
      (∀ p ∈ ents, entryParses p = true) →
      YDocProxy.nextNumGo g (ents.map Prod.fst) m
        = Except.ok (((ents.filterMap entryParsedNum).foldl max m + 1) % 2 ^ 64) := by
  intro ents
  induction ents with
  | nil =>
    intro m hres hp
    simp [YDocProxy.nextNumGo]
  | cons p rest ih =>
    intro m hres hp
    obtain ⟨t, s, v, he, hn, hv⟩ := entryParses_elim p (hp p (List.mem_cons_self p rest))
    obtain ⟨id, e⟩ := p
    simp only at he
    subst he
    have hr := hres (id, YOut.ymap t) (List.mem_cons_self _ rest)
    simp only [List.map_cons, YDocProxy.nextNumGo, YDocProxy.get]
    rw [hr]
    simp only []
    rw [hn]
    simp only []
    rw [hv]
    simp only []
    have ihr := ih (if v > m then v else m)
      (fun q hq => hres q (List.mem_cons_of_mem _ hq))
      (fun q hq => hp q (List.mem_cons_of_mem _ hq))
    rw [ihr]
    have hmax : (if v > m then v else m) = max m v := by
      rcases Nat.lt_or_ge m v with h | h
      · simp [h, Nat.max_eq_right (Nat.le_of_lt h)]
      · have : ¬v > m := Nat.not_lt.mpr h
        simp [this, Nat.max_eq_left h]
    rw [hmax]
    simp [List.filterMap_cons, entryParsedNum, hn, hv]

/-- The scan loop of `next_num` fails whenever some entry does not parse. -/
theorem nextNumGo_err (g : YGraph) :
    ∀ (ents : List (String × YOut)) (m : Nat),
      (∀ p ∈ ents, graphGet g p.1 = some p.2) →
      (∃ p ∈ ents, entryParses p = false) →
      ∃ e, YDocProxy.nextNumGo g (ents.map Prod.fst) m = Except.error e := by
  intro ents
  induction ents with
  | nil =>
    intro m hres hbad
    obtain ⟨p, hp, -⟩ := hbad
    cases hp
  | cons p rest ih =>
    intro m hres hbad
    obtain ⟨id, e⟩ := p
    have hr := hres (id, e) (List.mem_cons_self _ rest)
    by_cases hgp : entryParses (id, e) = true
    · obtain ⟨t, s, v, he, hn, hv⟩ := entryParses_elim (id, e) hgp
      simp only at he
      subst he
      simp only [List.map_cons, YDocProxy.nextNumGo, YDocProxy.get]
      rw [hr]
      simp only []
      rw [hn]
      simp only []
      rw [hv]
      simp only []
      apply ih
      · exact fun q hq => hres q (List.mem_cons_of_mem _ hq)
      · obtain ⟨q, hq, hqbad⟩ := hbad
        cases hq with
        | head => rw [hgp] at hqbad; cases hqbad
        | tail _ hq' => exact ⟨q, hq', hqbad⟩
    · simp only [List.map_cons, YDocProxy.nextNumGo, YDocProxy.get]
      rw [hr]
      cases e with
      | other => exact ⟨_, rfl⟩
      | ymap t =>
        simp only []
        cases hn : get_num t with
        | error e2 => exact ⟨e2, rfl⟩
        | ok s =>
          simp only []
          cases hv : parseU64 s with
          | error e2 => exact ⟨e2, rfl⟩
          | ok v => simp [entryParses, entryParsedNum, hn, hv] at hgp

/-- When the stored children cannot be decoded, `set_children` stores the
encoded target wholesale. -/
theorem set_children_corrupt_stores (t : YTask) (cs : List String)
    (h : ∃ e0, get_children t = Except.error e0) :
    getField (set_children t cs) "children" = some (YValue.yarray (strEnc cs)) := by
  obtain ⟨e0, he0⟩ := h
  cases hf : getField t "children" with
  | none => simp [get_children, hf] at he0
  | some v =>
    cases v with
    | yarray ys =>
      have hens1 : ensureChildren t = (t, ys) := by simp [ensureChildren, hf]
      have hgc : get_children (ensureChildren t).1 = Except.error e0 := by
        rw [hens1]
        exact he0
      simp only [set_children]
      rw [hgc]
      simp [getField_upsert]
    | any a =>
      have hens1 : ensureChildren t = (upsert t "children" (YValue.yarray []), []) := by
        simp [ensureChildren, hf]
      have hgc : get_children (ensureChildren t).1 = Except.ok [] := by
        rw [hens1]
        simp [get_children, getField_upsert, decodeChildren]
      by_cases hcs : cs = []
      · subst hcs
        simp only [set_children]
        rw [hgc]
        simp [hens1, getField_upsert, strEnc]
      · simp only [set_children]
        rw [hgc]
        have hne : ¬([] : List String) = cs := fun hh => hcs hh.symm
        simp only [if_neg hne, getField_upsert, if_pos rfl]
        have hda := diff_apply [] cs
        simp only [strEnc, List.map_nil] at hda
        rw [hens1]
        simp [hda, strEnc]
    | ytext s2 =>
      have hens1 : ensureChildren t = (upsert t "children" (YValue.yarray []), []) := by
        simp [ensureChildren, hf]
      have hgc : get_children (ensureChildren t).1 = Except.ok [] := by
        rw [hens1]
        simp [get_children, getField_upsert, decodeChildren]
      by_cases hcs : cs = []
      · subst hcs
        simp only [set_children]
        rw [hgc]
        simp [hens1, getField_upsert, strEnc]
      · simp only [set_children]
        rw [hgc]
        have hne : ¬([] : List String) = cs := fun hh => hcs hh.symm
        simp only [if_neg hne, getField_upsert, if_pos rfl]
        have hda := diff_apply [] cs
        simp only [strEnc, List.map_nil] at hda
        rw [hens1]
        simp [hda, strEnc]
    | ymap =>
      have hens1 : ensureChildren t = (upsert t "children" (YValue.yarray []), []) := by
        simp [ensureChildren, hf]
      have hgc : get_children (ensureChildren t).1 = Except.ok [] := by
        rw [hens1]
        simp [get_children, getField_upsert, decodeChildren]
      by_cases hcs : cs = []
      · subst hcs
        simp only [set_children]
        rw [hgc]
        simp [hens1, getField_upsert, strEnc]
      · simp only [set_children]
        rw [hgc]
        have hne : ¬([] : List String) = cs := fun hh => hcs hh.symm
        simp only [if_neg hne, getField_upsert, if_pos rfl]
        have hda := diff_apply [] cs
        simp only [strEnc, List.map_nil] at hda
        rw [hens1]
        simp [hda, strEnc]

/-! ## Claim theorems -/

/-- Claim C1: for every Task (with all fields populated or with only the
required id/num/name set), `YDocProxy::set` followed by `get` and `to_task`
in the same mutation scope returns Ok of a Task equal to the one set, every
absent optional field reading back as absent (the returned record equals
the input record, so `none` fields come back `none`). -/
theorem C1_set_get_roundtrip (g : YGraph) (task : Task) :
    (YDocProxy.get (YDocProxy.set g task) task.id).bind to_task = Except.ok task := by
  simp only [YDocProxy.set, YDocProxy.get]
  rw [graphGet_graphUpsert]
  simp only [if_pos rfl]
  exact to_task_pipeline _ task

/-- Claim C2 counterexample: a node with present kind "github" and
non-empty children ["c"]. The claim as stated ("otherwise — including a
present non-Rollup kind — is_rollup is true iff children is non-empty")
predicts `Ok(true)` here; the code returns `Ok(false)` because a present
kind decides alone. -/
theorem C2_counterexample :
    get_kind kindGithubTask = Except.ok (some "github") ∧
    get_children kindGithubTask = Except.ok ["c"] ∧
    is_rollup kindGithubTask = Except.ok false ∧
    is_rollup kindGithubTask ≠ Except.ok true := by
  refine ⟨by decide, by decide, by decide, by decide⟩

/-- Claim C2 (amended): `is_rollup` returns `kind == "Rollup"` whenever the
kind field is present (children are not consulted), and for an absent kind
returns whether the children list is non-empty. -/
theorem C2_is_rollup_amended (t : YTask) (kind : Option String) (cs : List String)
    (hk : get_kind t = Except.ok kind) (hc : get_children t = Except.ok cs) :
    is_rollup t = Except.ok
      (match kind with
       | some k => k == "Rollup"
       | none => !cs.isEmpty) := by
  cases kind with
  | some k => simp [is_rollup, hk]
  | none => simp [is_rollup, hk, hc]

theorem C2_amended_witness :
    is_rollup rollupTask = Except.ok true ∧
    is_rollup pcNode = Except.ok true ∧
    is_rollup kindGithubTask = Except.ok false := by
  refine ⟨?_, ?_, ?_⟩
  · exact (C2_is_rollup_amended rollupTask (some "Rollup") [] (by decide) (by decide)).trans
      (by decide)
  · exact (C2_is_rollup_amended pcNode none ["b", "c"] (by decide) (by decide)).trans
      (by decide)
  · exact (C2_is_rollup_amended kindGithubTask (some "github") ["c"] (by decide)
      (by decide)).trans (by decide)

/-- Claim C3: reconciling old children ["a","b","c"] to ["b","c","d"]
produces exactly one deletion (of "a", at old index 0) and one insertion
(of "d", at old index 3) — "b" and "c" sit under an Equal span, which
performs no operation on the sequence — the spans are applied in strictly
decreasing positional order, and the resulting sequence equals the target. -/
theorem C3_reconcile_abc_bcd :
    set_children abcNode ["b", "c", "d"]
      = [("children", YValue.yarray (strEnc ["b", "c", "d"]))] ∧
    childDiffOps ["a", "b", "c"] ["b", "c", "d"]
      = [DiffOp.insert 3 2 1, DiffOp.equal 1 0 2, DiffOp.delete 0 1 0] ∧
    (childDiffOps ["a", "b", "c"] ["b", "c", "d"]).map diffOpIndex = [3, 1, 0] ∧
    List.Chain' (fun x y => x > y) [3, 1, 0] ∧
    ∀ arr : List YAny, applyOp ["b", "c", "d"] arr (DiffOp.equal 1 0 2) = arr := by
  refine ⟨by decide, by decide, by decide, ?_, fun arr => rfl⟩
  simp [List.chain'_cons]

/-- Claim C4 counterexample: a graph whose single num parses as the largest
u64. The claim as stated predicts `Ok(max + 1) = Ok(2^64)`; the `u64`
increment wraps and the code returns `Ok(0)` (in a debug build the
overflow panics — either way, never `Ok(2^64)`). -/
theorem C4_counterexample :
    YDocProxy.next_num gBigNum = Except.ok 0 ∧
    YDocProxy.next_num gBigNum ≠ Except.ok (18446744073709551615 + 1) := by
  refine ⟨by decide, by decide⟩

/-- Claim C4 (amended): when every node's num parses as a u64, `next_num`
returns `(max + 1) mod 2^64` — equal to `max + 1` for every max below
`2^64 - 1`, and `1` on the empty graph — and it returns an error whenever
some node's num does not read or parse as an unsigned integer. -/
theorem C4_next_num_amended (g : YGraph) (hkeys : (g.map Prod.fst).Nodup) :
    ((∀ p ∈ g, entryParses p = true) →
      YDocProxy.next_num g = Except.ok ((graphMaxNum g + 1) % 2 ^ 64)) ∧
    ((∃ p ∈ g, entryParses p = false) →
      ∃ e, YDocProxy.next_num g = Except.error e) := by
  constructor
  · intro hp
    have h := nextNumGo_eq g g 0 (graphGet_of_mem g hkeys) hp
    simpa [YDocProxy.next_num, graphMaxNum] using h
  · intro hbad
    have h := nextNumGo_err g g 0 (graphGet_of_mem g hkeys) hbad
    simpa [YDocProxy.next_num] using h

theorem C4_amended_witness :
    YDocProxy.next_num gNums132 = Except.ok 4 ∧
    YDocProxy.next_num [] = Except.ok 1 ∧
    (∃ e, YDocProxy.next_num [("x", YOut.ymap [("num", YValue.any (YAny.str "abc"))])]
      = Except.error e) := by
  refine ⟨?_, ?_, ?_⟩
  · exact ((C4_next_num_amended gNums132 (by decide)).1 (by decide)).trans (by decide)
  · exact ((C4_next_num_amended [] (by decide)).1 (by decide)).trans (by decide)
  · exact (C4_next_num_amended [("x", YOut.ymap [("num", YValue.any (YAny.str "abc"))])]
      (by decide)).2
      ⟨("x", YOut.ymap [("num", YValue.any (YAny.str "abc"))]), by decide, by decide⟩

/-- Claim C5: `push_child` leaves the node untouched and reports `false`
when an equal string element is already in the children sequence, and
otherwise appends the id at the end of the (possibly freshly initialized)
sequence and reports `true`; existing elements are never reordered or
removed (the Rust `Result` is always `Ok`, modelled by the returned
pair). -/
theorem C5_push_child (t : YTask) (c : String) :
    (YAny.str c ∈ (ensureChildren t).2 →
      push_child t c = ((ensureChildren t).1, false)) ∧
    (YAny.str c ∉ (ensureChildren t).2 →
      push_child t c
        = (upsert (ensureChildren t).1 "children"
            (YValue.yarray ((ensureChildren t).2 ++ [YAny.str c])), true)) := by
  constructor
  · intro hmem
    have hb : ((ensureChildren t).2.any fun a => match a with
        | YAny.str s => decide (s = c)
        | _ => false) = true := (push_any_eq _ _).mpr hmem
    simp [push_child, hb]
  · intro hmem
    have hb : ¬((ensureChildren t).2.any fun a => match a with
        | YAny.str s => decide (s = c)
        | _ => false) = true := fun hh => hmem ((push_any_eq _ _).mp hh)
    simp [push_child, hb]

theorem C5_witness :
    push_child pcNode "b" = (pcNode, false) ∧
    push_child pcNode "d"
      = (upsert pcNode "children"
          (YValue.yarray [YAny.str "b", YAny.str "c", YAny.str "d"]), true) := by
  constructor
  · exact ((C5_push_child pcNode "b").1 (by decide)).trans (by decide)
  · exact ((C5_push_child pcNode "d").2 (by decide)).trans (by decide)

/-- Claim C6: when the stored children field cannot be read as a well-typed
list of strings, `set_children` does not propagate an error (in Rust it
returns unit; here it returns the updated node): the sequence is replaced
wholesale with the encoded target, and reading children afterwards yields
exactly the target. -/
theorem C6_corrupt_children_fallback (t : YTask) (cs : List String)
    (h : ∃ e0, get_children t = Except.error e0) :
    getField (set_children t cs) "children" = some (YValue.yarray (strEnc cs)) ∧
    get_children (set_children t cs) = Except.ok cs :=
  ⟨set_children_corrupt_stores t cs h, set_children_children t cs⟩

theorem C6_witness :
    getField (set_children kindBadChildren ["x", "y"]) "children"
      = some (YValue.yarray (strEnc ["x", "y"])) ∧
    get_children (set_children kindBadChildren ["x", "y"]) = Except.ok ["x", "y"] :=
  C6_corrupt_children_fallback kindBadChildren ["x", "y"]
    ⟨"invalid field: children", by decide⟩

/-- Claim C7: on a graph whose entries are all task nodes with readable
nums, all nums distinct, and a (duplicate-free) requested set, get_by_nums
returns Ok of exactly the tasks whose num is requested, in scan order —
a requested num with no match is silently omitted, never an error. -/
theorem C7_get_by_nums (g : YGraph) (ns : List String)
    (hkeys : (g.map Prod.fst).Nodup)
    (hgood : ∀ p ∈ g, entryGood p = true)
    (hnums : (graphNums g).Nodup)
    (hns : ns.Nodup) :
    YDocProxy.get_by_nums g ns = Except.ok (matchedTasks g ns) := by
  by_cases he : ns = []
  · subst he
    simp [YDocProxy.get_by_nums, matchedTasks_nil_req]
  · have hne : ¬ns.isEmpty = true := by simpa [List.isEmpty_iff] using he
    have hb := matchedTasks_bound g ns hnums
    have h := getByNumsGo_eq g ns g [] (graphGet_of_mem g hkeys) hgood (by simpa using hb)
    simp only [YDocProxy.get_by_nums, if_neg hne]
    simpa using h

theorem C7_witness :
    YDocProxy.get_by_nums gNum5 ["5", "9"]
      = Except.ok [[("num", YValue.any (YAny.str "5"))]] :=
  (C7_get_by_nums gNum5 ["5", "9"] (by decide) (by decide) (by decide) (by decide)).trans
    (by decide)

/-- Claim C8: for every optional scalar field — string, number, boolean —
an absent field or a null/undefined value reads as Ok(none); a present
value of the wrong variant reads as an error; a present value of the right
variant reads as Ok(some value); and writing none stores an explicit null
marker (the field stays present, holding null, distinct from absence), so
a subsequent read returns Ok(none). -/
theorem C8_optional_scalar_codec (t : YTask) (f : String) (v : YValue)
    (s : String) (n : Int) (b : Bool) :
    (getField t f = none →
      get_optional_string t f = Except.ok none ∧
      get_optional_number t f = Except.ok none ∧
      get_optional_bool t f = Except.ok none) ∧
    (getField t f = some (YValue.any YAny.null) ∨
        getField t f = some (YValue.any YAny.undefined) →
      get_optional_string t f = Except.ok none ∧
      get_optional_number t f = Except.ok none ∧
      get_optional_bool t f = Except.ok none) ∧
    (getField t f = some (YValue.any (YAny.str s)) →
      get_optional_string t f = Except.ok (some s)) ∧
    (getField t f = some (YValue.any (YAny.num n)) →
      get_optional_number t f = Except.ok (some n)) ∧
    (getField t f = some (YValue.any (YAny.bool b)) →
      get_optional_bool t f = Except.ok (some b)) ∧
    (getField t f = some v → (∀ s2, v ≠ YValue.any (YAny.str s2)) →
      v ≠ YValue.any YAny.null → v ≠ YValue.any YAny.undefined →
      ∃ e, get_optional_string t f = Except.error e) ∧
    (getField t f = some v → (∀ n2, v ≠ YValue.any (YAny.num n2)) →
      v ≠ YValue.any YAny.null → v ≠ YValue.any YAny.undefined →
      ∃ e, get_optional_number t f = Except.error e) ∧
    (getField t f = some v → (∀ b2, v ≠ YValue.any (YAny.bool b2)) →
      v ≠ YValue.any YAny.null → v ≠ YValue.any YAny.undefined →
      ∃ e, get_optional_bool t f = Except.error e) ∧
    (getField (set_assignee t none) "assignee" = some (YValue.any YAny.null) ∧
      get_assignee (set_assignee t none) = Except.ok none) ∧
    (getField (set_status_time t none) "statusTime" = some (YValue.any YAny.null) ∧
      get_status_time (set_status_time t none) = Except.ok none) ∧
    (getField (set_archived t none) "archived" = some (YValue.any YAny.null) ∧
      get_archived (set_archived t none) = Except.ok none) := by
  refine ⟨?_, ?_, ?_, ?_, ?_, ?_, ?_, ?_, ?_, ?_, ?_⟩
  · intro h
    exact ⟨by simp [get_optional_string, h], by simp [get_optional_number, h],
      by simp [get_optional_bool, h]⟩
  · rintro (h | h) <;>
      exact ⟨by simp [get_optional_string, h], by simp [get_optional_number, h],
        by simp [get_optional_bool, h]⟩
  · intro h
    simp [get_optional_string, h]
  · intro h
    simp [get_optional_number, h]
  · intro h
    simp [get_optional_bool, h]
  · intro h hs hnl hnu
    cases v with
    | any a =>
      cases a with
      | null => exact absurd rfl hnl
      | undefined => exact absurd rfl hnu
      | str s2 => exact absurd rfl (hs s2)
      | num n2 => exact ⟨"invalid field: " ++ f, by simp [get_optional_string, h]⟩
      | bool b2 => exact ⟨"invalid field: " ++ f, by simp [get_optional_string, h]⟩
    | ytext s2 => exact ⟨"invalid field: " ++ f, by simp [get_optional_string, h]⟩
    | yarray xs => exact ⟨"invalid field: " ++ f, by simp [get_optional_string, h]⟩
    | ymap => exact ⟨"invalid field: " ++ f, by simp [get_optional_string, h]⟩
  · intro h hs hnl hnu
    cases v with
    | any a =>
      cases a with
      | null => exact absurd rfl hnl
      | undefined => exact absurd rfl hnu
      | num n2 => exact absurd rfl (hs n2)
      | str s2 => exact ⟨"invalid field: " ++ f, by simp [get_optional_number, h]⟩
      | bool b2 => exact ⟨"invalid field: " ++ f, by simp [get_optional_number, h]⟩
    | ytext s2 => exact ⟨"invalid field: " ++ f, by simp [get_optional_number, h]⟩
    | yarray xs => exact ⟨"invalid field: " ++ f, by simp [get_optional_number, h]⟩
    | ymap => exact ⟨"invalid field: " ++ f, by simp [get_optional_number, h]⟩
  · intro h hs hnl hnu
    cases v with
    | any a =>
      cases a with
      | null => exact absurd rfl hnl
      | undefined => exact absurd rfl hnu
      | bool b2 => exact absurd rfl (hs b2)
      | str s2 => exact ⟨"invalid field: " ++ f, by simp [get_optional_bool, h]⟩
      | num n2 => exact ⟨"invalid field: " ++ f, by simp [get_optional_bool, h]⟩
    | ytext s2 => exact ⟨"invalid field: " ++ f, by simp [get_optional_bool, h]⟩
    | yarray xs => exact ⟨"invalid field: " ++ f, by simp [get_optional_bool, h]⟩
    | ymap => exact ⟨"invalid field: " ++ f, by simp [get_optional_bool, h]⟩
  · exact ⟨by simp [set_assignee, getField_upsert, encOptStr],
      by simp [get_assignee, set_assignee, get_optional_string, getField_upsert, encOptStr]⟩
  · exact ⟨by simp [set_status_time, getField_upsert, encOptInt],
      by simp [get_status_time, set_status_time, get_optional_number, getField_upsert,
        encOptInt]⟩
  · exact ⟨by simp [set_archived, getField_upsert, encOptBool],
      by simp [get_archived, set_archived, get_optional_bool, getField_upsert, encOptBool]⟩

theorem C8_witness :
    get_optional_number [("estimate", YValue.any (YAny.num 5))] "estimate"
      = Except.ok (some 5) ∧
    (∃ e, get_optional_string [("estimate", YValue.any (YAny.num 5))] "estimate"
      = Except.error e) ∧
    get_assignee (set_assignee [] none) = Except.ok none := by
  obtain ⟨h1, h2, h3, h4, h5, h6, h7, h8, h9, h10, h11⟩ :=
    C8_optional_scalar_codec [("estimate", YValue.any (YAny.num 5))] "estimate"
      (YValue.any (YAny.num 5)) "" 5 false
  refine ⟨h4 (by decide), h6 (by decide) ?_ (by decide) (by decide), ?_⟩
  · intro s2
    simp
  · obtain ⟨h1b, h2b, h3b, h4b, h5b, h6b, h7b, h8b, h9b, h10b, h11b⟩ :=
      C8_optional_scalar_codec [] "assignee" (YValue.any YAny.null) "" 0 false
    exact h9b.2

/-- Claim C9: the scan of get_by_nums is fail-fast: if, before all
requested nums have been matched, it reaches an entry that is not a map or
whose num is missing or not a string, it returns an error rather than
skipping the node. -/
theorem C9_get_by_nums_failfast (g : YGraph) (ns : List String)
    (pre post : List (String × YOut)) (badId : String) (badEntry : YOut)
    (hsplit : g = pre ++ (badId, badEntry) :: post)
    (hkeys : (g.map Prod.fst).Nodup)
    (hns : ns ≠ [])
    (hpre : ∀ p ∈ pre, entryGood p = true)
    (hcount : (matchedTasks pre ns).length < ns.length)
    (hbad : entryGood (badId, badEntry) = false) :
    ∃ e, YDocProxy.get_by_nums g ns = Except.error e := by
  have hmem : (badId, badEntry) ∈ g := by
    rw [hsplit]
    exact List.mem_append_right _ (List.mem_cons_self _ _)
  have hbadres : graphGet g badId = some badEntry :=
    graphGet_of_mem g hkeys (badId, badEntry) hmem
  have hkeysplit : g.map Prod.fst = pre.map Prod.fst ++ badId :: post.map Prod.fst := by
    simp [hsplit]
  have hpres : ∀ p ∈ pre, graphGet g p.1 = some p.2 := fun p hp =>
    graphGet_of_mem g hkeys p (by rw [hsplit]; exact List.mem_append_left _ hp)
  have hne : ¬ns.isEmpty = true := by simpa [List.isEmpty_iff] using hns
  simp only [YDocProxy.get_by_nums, if_neg hne]
  rw [hkeysplit]
  exact getByNumsGo_err g ns badId badEntry hbadres hbad pre (post.map Prod.fst) []
    hpres hpre (by simpa using hcount)

theorem C9_witness : ∃ e, YDocProxy.get_by_nums gBadScan ["1", "9"] = Except.error e :=
  C9_get_by_nums_failfast gBadScan ["1", "9"] [goodNum1] [] "bad" YOut.other rfl
    (by decide) (by decide) (by decide) (by decide) (by decide)

/-- Claim C10: whenever the kind field reads back as a present string,
is_rollup decides by comparing it with "Rollup" and never consults the
children field — the node's children may be arbitrary, even malformed, so
is_rollup can succeed where get_children errors. -/
theorem C10_is_rollup_kind_present (t : YTask) (k : String)
    (hk : get_kind t = Except.ok (some k)) :
    is_rollup t = Except.ok (k == "Rollup") := by
  simp [is_rollup, hk]

theorem C10_witness :
    is_rollup kindBadChildren = Except.ok false ∧
    (∃ e, get_children kindBadChildren = Except.error e) := by
  constructor
  · exact (C10_is_rollup_kind_present kindBadChildren "x" (by decide)).trans (by decide)
  · exact ⟨"invalid field: children", by decide⟩

end Koso
